import Mathlib

/-!
Formal model of the gas-demodulify-plugin code-emission engine
(`src/plugin/code-emission/CodeEmitter.ts`,
`src/plugin/code-emission/wildcards-resolution-helpers.ts`,
`src/plugin/invariants.ts`).

Strings are modelled through their character lists (`String.data`); every
JavaScript regular expression used by the plugin is embedded as an explicit
scanner over `List Char` that reproduces the regex's matching semantics
(including word boundaries, case-insensitivity and the bounded backtracking
needed for `\s+` followed by an interpolated name).
-/

namespace GasDemodulify

/-- JS word character, the `\w` / `\b` class of an ASCII regex: `[A-Za-z0-9_]`. -/
def isWordChar (c : Char) : Bool := c.isAlphanum || c == '_'

/-- JS whitespace class `\s` (the ASCII part; the sources only ever contain
ASCII whitespace). -/
def isJsSpace (c : Char) : Bool :=
  c == ' ' || c == '\t' || c == '\n' || c == '\r' || c == '\x0b' || c == '\x0c'

/-- ASCII lower-casing, the case folding performed by a `/i` regex flag on the
ASCII patterns used by the plugin. -/
def lowerAscii (c : Char) : Char := c.toLower

/-- Match the literal `pat` (given lower-cased) case-insensitively at the head
of `s`; on success return the remaining input. -/
def dropLitCI : List Char → List Char → Option (List Char)
  | [], s => some s
  | _ :: _, [] => none
  | p :: ps, c :: cs => if lowerAscii c == p then dropLitCI ps cs else none

/-- Match the literal `pat` case-sensitively at the head of `s`; on success
return the remaining input. -/
def dropLitCS : List Char → List Char → Option (List Char)
  | [], s => some s
  | _ :: _, [] => none
  | p :: ps, c :: cs => if c == p then dropLitCS ps cs else none

/-- Whether the next character (if any) is a word character; the end of input
counts as a non-word position, as for the regex `\b` anchor. -/
def headIsWord : List Char → Bool
  | [] => false
  | c :: _ => isWordChar c

/-- `/__webpack_/i` matching at the current position. -/
def matchP1At (s : List Char) : Bool := (dropLitCI "__webpack_".data s).isSome

/-- `/\.__esModule\b/i` matching at the current position: the literal followed
by a word boundary (last literal char is a word char, so the next char must not
be one). -/
def matchP2At (s : List Char) : Bool :=
  match dropLitCI ".__esmodule".data s with
  | some r => !headIsWord r
  | none => false

/-- `/\bexports\./i` matching at the current position; `prevW` records whether
the preceding character is a word character. -/
def matchP3At (prevW : Bool) (s : List Char) : Bool :=
  !prevW && (dropLitCI "exports.".data s).isSome

/-- `/\bmodule\.exports\b/i` matching at the current position. -/
def matchP4At (prevW : Bool) (s : List Char) : Bool :=
  !prevW &&
    (match dropLitCI "module.exports".data s with
     | some r => !headIsWord r
     | none => false)

/-- `/Object\.defineProperty\s*\(\s*exports\b/i` matching at the current
position.  The greedy `\s*` needs no backtracking because the following
literals `(` and `e` are not whitespace. -/
def matchP5At (s : List Char) : Bool :=
  match dropLitCI "object.defineproperty".data s with
  | none => false
  | some r1 =>
    match r1.dropWhile isJsSpace with
    | [] => false
    | c :: r2 =>
      c == '(' &&
        (match dropLitCI "exports".data (r2.dropWhile isJsSpace) with
         | some r3 => !headIsWord r3
         | none => false)

/-- Scan for a match of any pattern of `FORBIDDEN_WEBPACK_RUNTIME_PATTERNS`
(`src/plugin/invariants.ts`), carrying whether the previous character is a word
character (for the `\b` anchors; the start of input is a non-word position). -/
def scanForbidden : Bool → List Char → Bool
  | _, [] => false
  | prevW, c :: cs =>
    matchP1At (c :: cs) || matchP2At (c :: cs) || matchP3At prevW (c :: cs) ||
      matchP4At prevW (c :: cs) || matchP5At (c :: cs) ||
      scanForbidden (isWordChar c) cs

/-- `FORBIDDEN_WEBPACK_RUNTIME_PATTERNS.some(re => re.test(t))`: some forbidden
pattern matches somewhere in `t`. -/
def matchesForbiddenC (t : List Char) : Bool := scanForbidden false t

/-- String-level wrapper of `matchesForbiddenC`. -/
def matchesForbidden (t : String) : Bool := matchesForbiddenC t.data

/-- JS `String.prototype.trim` (ASCII whitespace). -/
def trimC (s : List Char) : List Char :=
  ((s.dropWhile isJsSpace).reverse.dropWhile isJsSpace).reverse

/-- Split at each `\n`; `acc` holds the (reversed) characters of the current
line. -/
def splitNL : List Char → List Char → List (List Char)
  | [], acc => [acc.reverse]
  | c :: rest, acc =>
    if c == '\n' then acc.reverse :: splitNL rest []
    else splitNL rest (c :: acc)

/-- Remove a single trailing `\r`, if present. -/
def stripCR (l : List Char) : List Char :=
  if l.getLast? == some '\r' then l.dropLast else l

/-- Apply `f` to every element except the last. -/
def mapInit (f : List Char → List Char) : List (List Char) → List (List Char)
  | [] => []
  | [a] => [a]
  | a :: b :: rest => f a :: mapInit f (b :: rest)

/-- JS `t.split(/\r?\n/)`.  Each match of the separator is one `\n`, optionally
consuming one `\r` right before it; this is the same as splitting at every
`\n` and then deleting a single trailing `\r` from every resulting line except
the last (the last line is not followed by a `\n`, so no `\r` is consumed
there). -/
def splitRN (s : List Char) : List (List Char) := mapInit stripCR (splitNL s [])

/-- The line list of a string, as the emitter's `source.split(/\r?\n/)` sees
it. -/
def splitLinesRN (s : String) : List String := (splitRN s.data).map String.mk

/-- JS `lines.join("\n")`. -/
def joinNL : List (List Char) → List Char
  | [] => []
  | [l] => l
  | l :: ls => l ++ '\n' :: joinNL ls

/-- The comment lead-in the sanitizer puts in front of a dropped line. -/
def commentMark : List Char := "// [dropped-by-gas-demodulify]: ".data

/-- One step of `sanitizeWebpackHelpers`: a line matching a forbidden pattern
is replaced by a comment that keeps the trimmed line text; other lines pass
through. -/
def sanitizeLineC (l : List Char) : List Char :=
  if matchesForbiddenC l then commentMark ++ trimC l else l

/-- `sanitizeWebpackHelpers` (`CodeEmitter.ts`): split into lines, comment out
the forbidden ones, re-join with `\n`. -/
def sanitizeWebpackHelpers (s : String) : String :=
  String.mk (joinNL ((splitRN s.data).map sanitizeLineC))

/-- String-level sanitizer step, for stating per-line properties. -/
def sanitizeLine (l : String) : String := String.mk (sanitizeLineC l.data)

/-! ### The aliased re-export scan of the entry module

`ALIASED_REEXPORT_RE = /export\s*\{[^}]*\bas\b[^}]*\}\s*from\s*['"][^'"]+['"]/`
(`CodeEmitter.ts`, `assertNoAliasedReexportsInEntry`). -/

/-- Quote character of the regex class `['"]`. -/
def isQuote (c : Char) : Bool := c == '\'' || c == '"'

/-- Split off the characters before the first `}` (the maximal span the regex
class `[^}]*` can cover) and the input after that `}`; `none` when no `}`
occurs. -/
def splitAtBrace : List Char → Option (List Char × List Char)
  | [] => none
  | c :: cs =>
    if c == '}' then some ([], cs)
    else
      match splitAtBrace cs with
      | some (a, b) => some (c :: a, b)
      | none => none

/-- `\bas\b` occurring somewhere in `region`; `prevW` is whether the character
before the current position is a word character (the `{` before the region is
not one). -/
def scanWordAs : Bool → List Char → Bool
  | _, [] => false
  | prevW, c :: cs =>
    (!prevW &&
       (match dropLitCS "as".data (c :: cs) with
        | some r => !headIsWord r
        | none => false)) ||
      scanWordAs (isWordChar c) cs

/-- `['"][^'"]+['"]`: an opening quote, at least one non-quote character, then
any later quote (choosing the first later quote makes all characters before it
non-quote). -/
def quotedPart : List Char → Bool
  | c :: d :: ds => isQuote c && !isQuote d && ds.any isQuote
  | _ => false

/-- One attempted match of `ALIASED_REEXPORT_RE` at the current position.  The
greedy `\s*` runs need no backtracking because each is followed by a literal
that is not whitespace. -/
def matchAliasedAt (s : List Char) : Bool :=
  match dropLitCS "export".data s with
  | none => false
  | some r1 =>
    match r1.dropWhile isJsSpace with
    | [] => false
    | c :: r2 =>
      c == '{' &&
        (match splitAtBrace r2 with
         | none => false
         | some (region, rest) =>
           scanWordAs false region &&
             (match dropLitCS "from".data (rest.dropWhile isJsSpace) with
              | none => false
              | some r3 => quotedPart (r3.dropWhile isJsSpace)))

/-- `ALIASED_REEXPORT_RE.test t`: a match at some position. -/
def matchesAliasedC : List Char → Bool
  | [] => false
  | c :: cs => matchAliasedAt (c :: cs) || matchesAliasedC cs

/-- String-level wrapper of `matchesAliasedC`. -/
def matchesAliased (t : String) : Bool := matchesAliasedC t.data

/-! ### The wildcard re-export scan

`exportStarRe = /export\s*\*\s*(?:as\s+\w+\s*)?(?:from\s+['"]|;)/`
(`wildcards-resolution-helpers.ts`). -/

/-- The tail alternative `(?:from\s+['"]|;)` at the current position. -/
def wcTail (s : List Char) : Bool :=
  (match s with
   | c :: _ => c == ';'
   | [] => false) ||
    (match dropLitCS "from".data s with
     | some r =>
       match r with
       | c :: cs =>
         isJsSpace c &&
           (match cs.dropWhile isJsSpace with
            | q :: _ => isQuote q
            | [] => false)
       | [] => false
     | none => false)

/-- `\w+\s*` followed by the tail, starting at `r3` (the position right after
`as\s+`).  The greedy `\w+` must backtrack (e.g. in `export * as xfrom "m"`
it has to give characters back so that `from` can match), so every split of
the leading word-character run is tried. -/
def wcGroupTail (r3 : List Char) : Bool :=
  (List.range (r3.takeWhile isWordChar).length).any fun j =>
    wcTail ((r3.drop (j + 1)).dropWhile isJsSpace)

/-- One attempted match of `exportStarRe` at the current position. -/
def matchWildcardAt (s : List Char) : Bool :=
  match dropLitCS "export".data s with
  | none => false
  | some r0 =>
    match r0.dropWhile isJsSpace with
    | [] => false
    | c :: r1 =>
      c == '*' &&
        (let r2 := r1.dropWhile isJsSpace
         wcTail r2 ||
           (match dropLitCS "as".data r2 with
            | some r3 =>
              match r3 with
              | d :: _ => isJsSpace d && wcGroupTail (r3.dropWhile isJsSpace)
              | [] => false
            | none => false))

/-- `exportStarRe.test t`: a match at some position. -/
def matchesWildcardC : List Char → Bool
  | [] => false
  | c :: cs => matchWildcardAt (c :: cs) || matchesWildcardC cs

/-- String-level wrapper of `matchesWildcardC`. -/
def matchesWildcard (t : String) : Bool := matchesWildcardC t.data

/-! ### The runtime-definition checks

`assertAllExportsHaveRuntimeDefinitions` builds, per export, the regexes
`function\s+NAME\s*\(`, `class\s+NAME\b` and `(?:const|let|var)\s+NAME\b`,
interpolating the export's local name (an identifier, so it stands for itself
in the regex). -/

/-- `\s+NAME\s*\(` at `r` (right after `function`).  Every split of the
leading whitespace run is tried because `NAME` is an arbitrary literal. -/
def defTailFun (name : List Char) (r : List Char) : Bool :=
  (List.range (r.takeWhile isJsSpace).length).any fun j =>
    match dropLitCS name (r.drop (j + 1)) with
    | some r2 =>
      match r2.dropWhile isJsSpace with
      | c :: _ => c == '('
      | [] => false
    | none => false

/-- `KW\s+NAME\b` at the current position.  The `\b` after `NAME` compares the
word-ness of `NAME`'s last character (the preceding whitespace when `NAME` is
empty) with that of the next character. -/
def defTailBound (kw name : List Char) (s : List Char) : Bool :=
  match dropLitCS kw s with
  | none => false
  | some r =>
    (List.range (r.takeWhile isJsSpace).length).any fun j =>
      match dropLitCS name (r.drop (j + 1)) with
      | some r2 =>
        (match name.getLast? with
         | some c => isWordChar c
         | none => false) != headIsWord r2
      | none => false

/-- `function\s+NAME\s*\(` matching at some position of `t`. -/
def scanFunDef (name : List Char) : List Char → Bool
  | [] => false
  | c :: cs =>
    (match dropLitCS "function".data (c :: cs) with
     | some r => defTailFun name r
     | none => false) ||
      scanFunDef name cs

/-- `KW\s+NAME\b` matching at some position of `t`. -/
def scanKwBound (kw name : List Char) : List Char → Bool
  | [] => false
  | c :: cs => defTailBound kw name (c :: cs) || scanKwBound kw name cs

/-- The disjunction tested by `assertAllExportsHaveRuntimeDefinitions` for one
export: a `function`, `class`, `const`, `let` or `var` definition of `name`
somewhere in `source`. -/
def hasRuntimeDefinition (name source : String) : Bool :=
  scanFunDef name.data source.data ||
    scanKwBound "class".data name.data source.data ||
    scanKwBound "const".data name.data source.data ||
    scanKwBound "let".data name.data source.data ||
    scanKwBound "var".data name.data source.data

/-! ## The module-graph data model

A read-only snapshot of the webpack objects the emitter consumes: entry
points with their chunks, per-module export metadata, code-generation
results, resource paths, the file system, and the compilation's asset map.
Modules are identified by an opaque id (JS object identity). -/

/-- Opaque module identity (webpack `Module` objects compare by reference). -/
abbrev ModuleId := Nat

/-- Webpack `RuntimeSpec`: `string | Set<string> | undefined`. -/
inductive RuntimeSpecM where
  | str (s : String)
  | rset (ss : List String)
  | undef
deriving Repr, DecidableEq

/-- One entry of `exportsInfo.orderedExports`: the export's name, its
`provided` flag (`true`/`false` or not a boolean), and the `(module, export)`
pair `getTarget` resolves to for re-exports. -/
structure ExportInfoM where
  name : String
  provided : Option Bool
  target : Option (ModuleId × String)
deriving Repr, DecidableEq

/-- A module's `exportsInfo`.  `otherProvided` models
`exportsInfo.otherExportsInfo`: the outer `Option` is whether that object is
defined, the inner one its `provided` flag. -/
structure ExportsInfoM where
  orderedExports : List ExportInfoM
  otherProvided : Option (Option Bool)
deriving Repr, DecidableEq

/-- A webpack chunk: its runtime and the module sets the chunk graph reports
for it (`getChunkModulesIterable` / `getChunkEntryModulesIterable`). -/
structure ChunkM where
  runtime : RuntimeSpecM
  modules : List ModuleId
  entryModules : List ModuleId
deriving Repr, DecidableEq

/-- A webpack entry point, duck-typed as in `resolveTsEntrypoint`: it may
expose an iterable `chunks` field, or a `getEntrypointChunk()` accessor. -/
structure EntrypointM where
  chunksField : Option (List ChunkM)
  entrypointChunk : Option ChunkM
deriving Repr, DecidableEq

/-- The chunk-array normalization of `resolveTsEntrypoint`: prefer the
`chunks` field, fall back to `[getEntrypointChunk()]`, else the empty array. -/
def chunksOfEntrypoint (ep : EntrypointM) : List ChunkM :=
  match ep.chunksField with
  | some cs => cs
  | none =>
    match ep.entrypointChunk with
    | some c => [c]
    | none => []

/-- The compilation snapshot read by one emitter run. -/
structure CompilationM where
  entrypoints : List (String × EntrypointM)
  resourceOf : ModuleId → Option String
  exportsInfoOf : ModuleId → ExportsInfoM
  codeGenOf : ModuleId → RuntimeSpecM → Option String
  contextDir : Option String
  processCwd : String
  fsFiles : List (String × String)
  assets : List (String × String)

/-- JS `s.startsWith(pre)`. -/
def strStartsWith (s pre : String) : Bool := pre.data.isPrefixOf s.data

/-- JS `s.endsWith(suf)`. -/
def strEndsWith (s suf : String) : Bool := suf.data.isSuffixOf s.data

/-- `dropLitCS` succeeding at some position: JS `hay.includes(needle)`. -/
def strContainsC (needle : List Char) : List Char → Bool
  | [] => needle.isEmpty
  | c :: cs => (dropLitCS needle (c :: cs)).isSome || strContainsC needle cs

/-- String-level wrapper of `strContainsC`. -/
def strContains (hay needle : String) : Bool := strContainsC needle.data hay.data

/-- `fs.readFileSync`'s view of the file system (`none` = the file is
absent, so a read throws). -/
def fsRead (comp : CompilationM) (p : String) : Option String :=
  comp.fsFiles.lookup p

/-- `fs.existsSync`. -/
def fsExists (comp : CompilationM) (p : String) : Bool := (fsRead comp p).isSome

/-- `path.isAbsolute` (POSIX). -/
def isAbsolutePath (p : String) : Bool := strStartsWith p "/"

/-- `path.resolve(ctx, p)` for a plain relative path (no `.`/`..` segment
normalization is needed by the states considered here). -/
def resolvePath (ctx p : String) : String := ctx ++ "/" ++ p

/-- The absolute path the wildcard scan reads:
`path.isAbsolute(resource) ? resource : path.resolve(options.context ?? process.cwd(), resource)`. -/
def absPathOf (comp : CompilationM) (p : String) : String :=
  if isAbsolutePath p then p
  else resolvePath (match comp.contextDir with | some c => c | none => comp.processCwd) p

/-- `.ts` / `.tsx` resource test used by the entrypoint resolver and the
wildcard scan. -/
def isTsPath (p : String) : Bool := strEndsWith p ".ts" || strEndsWith p ".tsx"

/-- `ResolvedEntrypoint` (`code-emission/types.ts`). -/
structure ResolvedEntrypointM where
  entryName : String
  entryModule : ModuleId
  runtime : RuntimeSpecM
  chunks : List ChunkM
deriving Repr, DecidableEq

/-- The error kinds the emitter can throw, one constructor per `throw` site:
`"No TypeScript entrypoint found"`, the entrypoint-cardinality message (with
the candidate entry names), the aliased re-export error, the wildcard
re-export error (with its detail line), `"No exported symbols found..."`,
`"Exported symbol '<name>' has no runtime definition."`, and a Node I/O error
escaping `fs.readFileSync` (with the path). -/
inductive EmitError where
  | noTsEntrypoint
  | entrypointCardinality (names : List String)
  | unsupportedAliasedReexport
  | unsupportedWildcard (detail : String)
  | noExportedSymbols
  | missingRuntimeDefinition (name : String)
  | ioErr (path : String)
deriving Repr, DecidableEq

/-- `EmitterOpts` (`code-emission/types.ts`), the fields the emitter reads. -/
structure EmitterOptsM where
  namespaceRoot : String
  subsystem : String
  defaultExportName : Option String
deriving Repr, DecidableEq

/-! ## Entrypoint resolution (`resolveTsEntrypoint`) -/

/-- The first chunk-entry module whose resource path has a TypeScript
extension (the inner loop of `resolveTsEntrypoint` breaks at the first
match). -/
def firstTsEntryModule (comp : CompilationM) (chunk : ChunkM) : Option ModuleId :=
  chunk.entryModules.find? fun m =>
    match comp.resourceOf m with
    | some p => isTsPath p
    | none => false

/-- The candidate list built by `resolveTsEntrypoint`: one candidate per
(entry point, chunk) pair whose chunk yields a TypeScript entry module; the
candidate records the entry name, that module, the chunk's runtime, and the
entry point's whole chunk array. -/
def candidatesOf (comp : CompilationM) : List ResolvedEntrypointM :=
  (comp.entrypoints.map fun named =>
    let chunks := chunksOfEntrypoint named.2
    chunks.filterMap fun chunk =>
      (firstTsEntryModule comp chunk).map fun m =>
        ResolvedEntrypointM.mk named.1 m chunk.runtime chunks).flatten

/-- `resolveTsEntrypoint` (`wildcards-resolution-helpers.ts`): exactly one
candidate is returned; zero or several raise. -/
def resolveTsEntrypoint (comp : CompilationM) : Except EmitError ResolvedEntrypointM :=
  match candidatesOf comp with
  | [] => .error .noTsEntrypoint
  | [c] => .ok c
  | cs => .error (.entrypointCardinality (cs.map ResolvedEntrypointM.entryName))

/-! ## The guards -/

/-- `assertNoAliasedReexportsInEntry` (`CodeEmitter.ts`): when the entry
module has a string resource path, read that file unconditionally
(`fs.readFileSync` throws when it is absent) and reject a match of
`ALIASED_REEXPORT_RE`. -/
def assertNoAliasedReexportsInEntry (comp : CompilationM) (m : ModuleId) :
    Except EmitError Unit :=
  match comp.resourceOf m with
  | none => .ok ()
  | some resource =>
    match fsRead comp resource with
    | none => .error (.ioErr resource)
    | some content =>
      if matchesAliased content then .error .unsupportedAliasedReexport
      else .ok ()

/-- The per-module body of `assertNoWildcardReexports`: the static source
scan (only for an existing `.ts`/`.tsx` resource; a missing file is skipped),
then the `otherExportsInfo.provided === true` fallback. -/
def scanModuleWildcard (comp : CompilationM) (m : ModuleId) : Except EmitError Unit :=
  let staticHit :=
    match comp.resourceOf m with
    | some p =>
      if isTsPath p then
        match fsRead comp (absPathOf comp p) with
        | some content =>
          if matchesWildcard content then some (absPathOf comp p) else none
        | none => none
      else none
    | none => none
  match staticHit with
  | some abs => .error (.unsupportedWildcard abs)
  | none =>
    if (comp.exportsInfoOf m).otherProvided == some (some true) then
      .error (.unsupportedWildcard
        (match comp.resourceOf m with | some p => p | none => "<synthetic>"))
    else .ok ()

/-- The inner loop of `assertNoWildcardReexports` over one chunk's modules. -/
def scanModulesWildcard (comp : CompilationM) : List ModuleId → Except EmitError Unit
  | [] => .ok ()
  | m :: ms =>
    match scanModuleWildcard comp m with
    | .error e => .error e
    | .ok _ => scanModulesWildcard comp ms

/-- The outer loop of `assertNoWildcardReexports` over the entry's chunks. -/
def scanChunksWildcard (comp : CompilationM) : List ChunkM → Except EmitError Unit
  | [] => .ok ()
  | c :: cs =>
    match scanModulesWildcard comp c.modules with
    | .error e => .error e
    | .ok _ => scanChunksWildcard comp cs

/-- `assertNoWildcardReexports` (`wildcards-resolution-helpers.ts`). -/
def assertNoWildcardReexports (comp : CompilationM) (entry : ResolvedEntrypointM) :
    Except EmitError Unit :=
  scanChunksWildcard comp entry.chunks

/-! ## Export-surface resolution (`getExportBindings`) -/

/-- `ExportBinding` (`code-emission/types.ts`). -/
structure ExportBindingM where
  exportName : String
  localName : String
  webpackExportName : String
deriving Repr, DecidableEq

/-- The binding produced for one ordered export: the `__esModule` interop
flag is skipped, `default` maps to the configured override (or the
`defaultExport` fallback) with local name `defaultExport`, and a named export
maps to itself. -/
def bindingOf (opts : EmitterOptsM) (info : ExportInfoM) : Option ExportBindingM :=
  if info.name == "__esModule" then none
  else if info.name == "default" then
    some { exportName := (opts.defaultExportName).getD "defaultExport",
           localName := "defaultExport",
           webpackExportName := "default" }
  else
    some { exportName := info.name, localName := info.name,
           webpackExportName := info.name }

/-- `getExportBindings` (`CodeEmitter.ts`). -/
def getExportBindings (comp : CompilationM) (m : ModuleId) (opts : EmitterOptsM) :
    List ExportBindingM :=
  ((comp.exportsInfoOf m).orderedExports).filterMap (bindingOf opts)

/-! ## Emission-set collection and source extraction -/

/-- `Set.add` on object identities, preserving insertion order. -/
def insertUniq (l : List ModuleId) (m : ModuleId) : List ModuleId :=
  if m ∈ l then l else l ++ [m]

/-- `collectModulesToEmit` (`CodeEmitter.ts`): a `Set` seeded with the entry
module, then every module of every entry chunk, converted back to an array. -/
def collectModulesToEmit (comp : CompilationM) (entry : ResolvedEntrypointM) :
    List ModuleId :=
  ((entry.chunks.map ChunkM.modules).flatten).foldl insertUniq [entry.entryModule]

/-- `getModuleSource` (`CodeEmitter.ts`): the `javascript` (or `js`)
code-generation source for the module and runtime, or `""` when any link of
the optional chain is missing. -/
def getModuleSource (comp : CompilationM) (m : ModuleId) (runtime : RuntimeSpecM) :
    String :=
  (comp.codeGenOf m runtime).getD ""

/-- `getCombinedModuleSource` (`CodeEmitter.ts`): per-module sources, empty
ones dropped (`filter(Boolean)`), joined with `\n`. -/
def getCombinedModuleSource (comp : CompilationM) (modules : List ModuleId)
    (runtime : RuntimeSpecM) : String :=
  String.intercalate "\n"
    ((modules.map fun m => getModuleSource comp m runtime).filter fun s => s != "")

/-! ## Runtime-definition assertion -/

/-- The first export binding (skipping `default` bindings) whose local name
has no `function`/`class`/`const`/`let`/`var` definition in the combined
source, if any: the export `assertAllExportsHaveRuntimeDefinitions` throws
for. -/
def findMissingRuntimeDef (exports : List ExportBindingM) (source : String) :
    Option String :=
  exports.findSome? fun e =>
    if e.webpackExportName == "default" then none
    else if hasRuntimeDefinition e.localName source then none
    else some e.localName

/-- `assertAllExportsHaveRuntimeDefinitions` (`CodeEmitter.ts`). -/
def assertAllExportsHaveRuntimeDefinitions (exports : List ExportBindingM)
    (source : String) : Except EmitError Unit :=
  match findMissingRuntimeDef exports source with
  | some n => .error (.missingRuntimeDefinition n)
  | none => .ok ()

/-! ## Output assembly and asset bookkeeping -/

/-- `renderNamespaceInit` (`CodeEmitter.ts`); the `ts-dedent` template with
its fixed 8-space indentation stripped and the leading/trailing template
newlines removed, as the `dedent` tag computes. -/
def renderNamespaceInit (ns : String) : String :=
  "(function init(ns) \x7b\n  let o = globalThis;\n  for (const p of ns.split(\".\")) \x7b\n    o[p] = o[p] || \x7b\x7d;\n    o = o[p];\n  \x7d\n\x7d)(\"" ++ ns ++ "\");"

/-- One `globalThis.<ns>.<exportName> = <localName>;` assignment line. -/
def exportAssignment (ns : String) (e : ExportBindingM) : String :=
  "globalThis." ++ ns ++ "." ++ e.exportName ++ " = " ++ e.localName ++ ";"

/-- `getGasSafeOutput` (`CodeEmitter.ts`): on its template, `ts-dedent`
strips the literal parts' common 8-space indentation and splices the three
values at zero indentation, giving exactly the initializer, the module
source, and the assignment block separated by blank lines. -/
def getGasSafeOutput (ns source : String) (exports : List ExportBindingM) : String :=
  renderNamespaceInit ns ++ "\n\n" ++ source ++ "\n\n" ++
    String.intercalate "\n" (exports.map (exportAssignment ns))

/-- The sentinel output filename (`OUTPUT_BUNDLE_FILENAME_TO_DELETE`). -/
def OUTPUT_BUNDLE_FILENAME_TO_DELETE : String :=
  "OUTPUT-BUNDLE-FILENAME-DERIVED-FROM-ENTRY-NAME"

/-- `cleanupUnwantedOutputFiles` (`CodeEmitter.ts`): delete every asset whose
name ends in `.js` and the sentinel asset. -/
def cleanupUnwantedOutputFiles (assets : List (String × String)) :
    List (String × String) :=
  assets.filter fun a =>
    !(strEndsWith a.1 ".js" || a.1 == OUTPUT_BUNDLE_FILENAME_TO_DELETE)

/-- `compilation.emitAsset`: record the new asset (overwriting a same-named
one). -/
def emitAsset (assets : List (String × String)) (name content : String) :
    List (String × String) :=
  if assets.any fun a => a.1 == name then
    assets.map fun a => if a.1 == name then (name, content) else a
  else assets ++ [(name, content)]

/-- Asset lookup by name (first entry with that key). -/
def lookupAsset (name : String) : List (String × String) → Option String
  | [] => none
  | a :: t => if a.1 == name then some a.2 else lookupAsset name t

/-! ## The emitter pipeline (`getEmitterFunc`) -/

/-- The body of the `processAssets` callback returned by `getEmitterFunc`
(`CodeEmitter.ts`), as a function from the compilation snapshot to either the
thrown error or the final asset map.  The stages run in source order:
entrypoint resolution, the aliased re-export guard, the wildcard guard,
export-binding resolution (failing on an empty list), emission-set
collection, source extraction, the runtime-definition assertion,
sanitization, output assembly, asset cleanup, and the single `emitAsset`.
(`assertRuntimeSpec` cannot fail here: chunk runtimes are well-typed in this
model.) -/
def runEmitter (comp : CompilationM) (opts : EmitterOptsM) :
    Except EmitError (List (String × String)) :=
  match resolveTsEntrypoint comp with
  | .error e => .error e
  | .ok entry =>
    match assertNoAliasedReexportsInEntry comp entry.entryModule with
    | .error e => .error e
    | .ok _ =>
      match assertNoWildcardReexports comp entry with
      | .error e => .error e
      | .ok _ =>
        let exportBindings := getExportBindings comp entry.entryModule opts
        if exportBindings.length = 0 then .error .noExportedSymbols
        else
          let modulesToEmit := collectModulesToEmit comp entry
          let rawSource := getCombinedModuleSource comp modulesToEmit entry.runtime
          match assertAllExportsHaveRuntimeDefinitions exportBindings rawSource with
          | .error e => .error e
          | .ok _ =>
            let sanitizedSource := sanitizeWebpackHelpers rawSource
            let output := getGasSafeOutput (opts.namespaceRoot ++ "." ++ opts.subsystem)
              sanitizedSource exportBindings
            let cleaned := cleanupUnwantedOutputFiles comp.assets
            .ok (emitAsset cleaned (entry.entryName ++ ".gs") output)

/-- The compilation's asset map after the callback: the emitted map on
success, the untouched input map when an error is thrown (every `throw` in
the pipeline happens before `cleanupUnwantedOutputFiles` and `emitAsset`, the
only asset mutations). -/
def assetsAfter (comp : CompilationM) (opts : EmitterOptsM) : List (String × String) :=
  match runEmitter comp opts with
  | .ok a => a
  | .error _ => comp.assets

/-! ## Auxiliary observations used by the statements -/

/-- Number of `\n` characters. -/
def countNL (l : List Char) : Nat := l.count '\n'

/-- The condition under which `scanModuleWildcard` rejects module `m`: the
static source scan matches (a `.ts`/`.tsx` resource whose file exists and
whose text matches `exportStarRe`), or the graph reports the other-exports
flag as provided. -/
def wildcardHit (comp : CompilationM) (m : ModuleId) : Bool :=
  (match comp.resourceOf m with
   | some p =>
     isTsPath p &&
       (match fsRead comp (absPathOf comp p) with
        | some content => matchesWildcard content
        | none => false)
   | none => false) ||
    (comp.exportsInfoOf m).otherProvided == some (some true)

/-- How many (entry point, chunk) pairs of the compilation yield a TypeScript
chunk-entry module; `resolveTsEntrypoint` builds one candidate per such
pair. -/
def countTsChunkHits (comp : CompilationM) : Nat :=
  (comp.entrypoints.map fun named =>
    ((chunksOfEntrypoint named.2).filter fun ch =>
      (firstTsEntryModule comp ch).isSome).length).sum

/-! ## Spec-side definitions (for refinement comparison only)

The following two definitions follow the specification's words, not the
source; the theorems compare them against the definitions embedded from the
source. -/

/-- Spec-side definition, following the spec's words: resolve an export's
*defining module* by tracing `getTarget` re-export chains on the export
metadata until a module is reached that has no further re-export target or is
itself reported as the provider; `none` models the resolution failure (no
target and not locally provided) the spec calls a hard error.  `fuel` bounds
chain length (any bound larger than the chain suffices). -/
def specDefiningModule (comp : CompilationM) :
    Nat → ModuleId → String → Option ModuleId
  | 0, _, _ => none
  | fuel + 1, m, exportName =>
    match ((comp.exportsInfoOf m).orderedExports).find? fun i =>
        i.name == exportName with
    | none => none
    | some i =>
      match i.target with
      | some t =>
        if i.provided == some true then some m
        else specDefiningModule comp fuel t.1 t.2
      | none => if i.provided == some true then some m else none

/-- Spec-side definition, following the spec's words: an entry point is a
resolver *candidate* when it yields a chunk entry module whose resource path
ends in a source-language extension. -/
def specCandidateEntrypoints (comp : CompilationM) : List (String × EntrypointM) :=
  comp.entrypoints.filter fun named =>
    (chunksOfEntrypoint named.2).any fun ch => (firstTsEntryModule comp ch).isSome

/-! ## Concrete compilation snapshots

Small closed states used to evaluate the pipeline: a fully successful build,
and one state per failure mode or divergence of interest. -/

/-- Default plugin options (`namespaceRoot = "MYADDON"`, `subsystem = "GAS"`,
no default-export override). -/
def optsStd : EmitterOptsM :=
  { namespaceRoot := "MYADDON", subsystem := "GAS", defaultExportName := none }

/-- Options with `defaultExportName: "main"`. -/
def optsMain : EmitterOptsM :=
  { namespaceRoot := "MYADDON", subsystem := "GAS", defaultExportName := some "main" }

/-- A single chunk holding one module that is also its entry module. -/
def chunkOk : ChunkM := { runtime := .undef, modules := [0], entryModules := [0] }

/-- A clean single-entry build: `index.ts` exports `foo`, the generated source
defines `function foo`, and the compilation already holds a `.js` bundle, the
sentinel asset, and one unrelated asset. -/
def compC10 : CompilationM :=
  { entrypoints := [("backend", { chunksField := some [chunkOk], entrypointChunk := none })]
    resourceOf := fun m => if m == 0 then some "/p/index.ts" else none
    exportsInfoOf := fun m =>
      if m == 0 then
        { orderedExports := [{ name := "foo", provided := some true, target := none }],
          otherProvided := none }
      else { orderedExports := [], otherProvided := none }
    codeGenOf := fun m _ => if m == 0 then some "function foo() \x7b return 1; \x7d" else none
    contextDir := some "/p"
    processCwd := "/p"
    fsFiles := [("/p/index.ts", "export function foo() \x7b\x7d")]
    assets := [("backend.js", "js-bundle"),
               ("OUTPUT-BUNDLE-FILENAME-DERIVED-FROM-ENTRY-NAME", "sentinel"),
               ("keep.txt", "data")] }

/-- The resolved entrypoint of `compC10` (and of the states derived from it
that keep its single chunk). -/
def entryOk : ResolvedEntrypointM :=
  { entryName := "backend", entryModule := 0, runtime := .undef, chunks := [chunkOk] }

/-- The final assets of the successful `compC10` run. -/
def finC10 : List (String × String) :=
  match runEmitter compC10 optsStd with
  | .ok a => a
  | .error _ => []

/-- Like `compC10`, but the generated module source deliberately contains a
`__webpack_` line. -/
def compC1 : CompilationM :=
  { compC10 with
    codeGenOf := fun m _ =>
      if m == 0 then
        some "function foo() \x7b\x7d\nvar __webpack_exports__ = \x7b\x7d;"
      else none }

/-- The artifact emitted by the `compC1` run. -/
def outC1 : String := (lookupAsset "backend.gs" (assetsAfter compC1 optsStd)).getD ""

/-- The entry module re-exports `foo` from module 1 (`getTarget` points to
it), but module 1 was tree-shaken: it is in no chunk. -/
def compC2 : CompilationM :=
  { entrypoints := [("backend", { chunksField := some [chunkOk], entrypointChunk := none })]
    resourceOf := fun m =>
      if m == 0 then some "/p/index.ts" else if m == 1 then some "/p/m.ts" else none
    exportsInfoOf := fun m =>
      if m == 0 then
        { orderedExports := [{ name := "foo", provided := some false, target := some (1, "foo") }],
          otherProvided := none }
      else if m == 1 then
        { orderedExports := [{ name := "foo", provided := some true, target := none }],
          otherProvided := none }
      else { orderedExports := [], otherProvided := none }
    codeGenOf := fun m _ => if m == 0 then some "function foo() \x7b\x7d" else none
    contextDir := some "/p"
    processCwd := "/p"
    fsFiles := [("/p/index.ts", "export \x7b foo \x7d from './m';")]
    assets := [] }

/-- A build whose only export is a default export and whose generated source
defines no `defaultExport` identifier. -/
def compC3 : CompilationM :=
  { compC10 with
    exportsInfoOf := fun m =>
      if m == 0 then
        { orderedExports := [{ name := "default", provided := some true, target := none }],
          otherProvided := none }
      else { orderedExports := [], otherProvided := none }
    codeGenOf := fun m _ => if m == 0 then some "const d = 1;" else none
    fsFiles := [("/p/index.ts", "const d = 1;\nexport default d;")] }

/-- The artifact emitted by the `compC3` run. -/
def outC3 : String := (lookupAsset "backend.gs" (assetsAfter compC3 optsStd)).getD ""

/-- The entry module's resource path names a file that does not exist on
disk. -/
def compC4 : CompilationM :=
  { compC10 with
    resourceOf := fun m => if m == 0 then some "/p/gone.ts" else none
    fsFiles := [] }

/-- A chunk whose second module carries a wildcard re-export in its source
file. -/
def chunkC6 : ChunkM := { runtime := .undef, modules := [0, 1], entryModules := [0] }

/-- A build reaching a module (`/p/m.ts`) whose source is
`export * from './x';`. -/
def compC6 : CompilationM :=
  { compC10 with
    entrypoints := [("backend", { chunksField := some [chunkC6], entrypointChunk := none })]
    resourceOf := fun m =>
      if m == 0 then some "/p/index.ts" else if m == 1 then some "/p/m.ts" else none
    fsFiles := [("/p/index.ts", "export \x7b foo \x7d from './m';"),
                ("/p/m.ts", "export * from './x';")] }

/-- The resolved entrypoint of `compC6`. -/
def entryC6 : ResolvedEntrypointM :=
  { entryName := "backend", entryModule := 0, runtime := .undef, chunks := [chunkC6] }

/-- A chunk holding module 0 as entry module. -/
def chunkC7a : ChunkM := { runtime := .undef, modules := [0], entryModules := [0] }

/-- A chunk holding module 1 as entry module. -/
def chunkC7b : ChunkM := { runtime := .undef, modules := [1], entryModules := [1] }

/-- One single entry point with two chunks, each of which yields a TypeScript
entry module. -/
def compC7 : CompilationM :=
  { compC10 with
    entrypoints := [("backend",
      { chunksField := some [chunkC7a, chunkC7b], entrypointChunk := none })]
    resourceOf := fun m =>
      if m == 0 then some "/p/index.ts"
      else if m == 1 then some "/p/other.ts" else none }

/-- A build whose entry module exposes only the `__esModule` interop flag. -/
def compC9 : CompilationM :=
  { compC10 with
    exportsInfoOf := fun m =>
      if m == 0 then
        { orderedExports := [{ name := "__esModule", provided := some true, target := none }],
          otherProvided := none }
      else { orderedExports := [], otherProvided := none } }

/-- A build exporting `foo` whose generated source defines only `bar`. -/
def compW3 : CompilationM :=
  { compC10 with
    codeGenOf := fun m _ => if m == 0 then some "var bar = 1;" else none }

/-- Line used for the sanitizer statements: a leaked webpack helper line. -/
def lineW1 : String := "var __webpack_exports__ = \x7b\x7d;"

/-- Input used for the sanitizer statements: three lines, the middle one a
leaked webpack helper line. -/
def srcW8 : String := "keep\nvar __webpack_require__ = 1;\nalso keep"

/-! ## Helper lemmas: lists and lines -/

theorem isPrefixOf_append_self (x y : List Char) : x.isPrefixOf (x ++ y) = true := by
  induction x with
  | nil => simp [List.isPrefixOf]
  | cons c cs ih => simpa [List.isPrefixOf] using ih

theorem splitNL_length (s : List Char) :
    ∀ acc, (splitNL s acc).length = countNL s + 1 := by
  induction s with
  | nil => intro acc; simp [splitNL, countNL]
  | cons c cs ih =>
    intro acc
    by_cases hc : c = '\n'
    · subst hc
      simp [splitNL, countNL, List.count_cons, ih]
    · have hb : (c == '\n') = false := by simp [hc]
      simp [splitNL, hb, countNL, List.count_cons, hc, ih]

theorem splitNL_countNL (s : List Char) :
    ∀ acc, countNL acc = 0 → ∀ l ∈ splitNL s acc, countNL l = 0 := by
  induction s with
  | nil =>
    intro acc hacc l hl
    simp only [splitNL, List.mem_singleton] at hl
    subst hl
    simpa [countNL] using hacc
  | cons c cs ih =>
    intro acc hacc l hl
    by_cases hc : c = '\n'
    · subst hc
      simp only [splitNL, beq_self_eq_true, if_true, List.mem_cons] at hl
      rcases hl with hl | hl
      · subst hl; simpa [countNL] using hacc
      · exact ih [] (by simp [countNL]) l hl
    · have hb : (c == '\n') = false := by simp [hc]
      simp only [splitNL, hb, Bool.false_eq_true, if_false] at hl
      exact ih (c :: acc) (by simpa [countNL, List.count_cons, hc] using hacc) l hl

theorem splitNL_of_countNL_zero (l : List Char) (h : countNL l = 0) :
    ∀ acc, splitNL l acc = [acc.reverse ++ l] := by
  induction l with
  | nil => intro acc; simp [splitNL]
  | cons c cs ih =>
    intro acc
    simp only [countNL, List.count_cons] at h
    have hc : ¬(c = '\n') := by
      intro hceq
      simp [hceq] at h
    have hcs : countNL cs = 0 := by
      rcases Nat.add_eq_zero.mp h with ⟨h1, _⟩
      exact h1
    have hb : (c == '\n') = false := by simp [hc]
    simp [splitNL, hb, ih hcs]

theorem splitNL_append_newline (l : List Char) (h : countNL l = 0) :
    ∀ acc t, splitNL (l ++ '\n' :: t) acc = (acc.reverse ++ l) :: splitNL t [] := by
  induction l with
  | nil => intro acc t; simp [splitNL]
  | cons c cs ih =>
    intro acc t
    simp only [countNL, List.count_cons] at h
    have hc : ¬(c = '\n') := by
      intro hceq
      simp [hceq] at h
    have hcs : countNL cs = 0 := by
      rcases Nat.add_eq_zero.mp h with ⟨h1, _⟩
      exact h1
    have hb : (c == '\n') = false := by simp [hc]
    simp [splitNL, hb, ih hcs]

theorem mapInit_length (f : List Char → List Char) (ls : List (List Char)) :
    (mapInit f ls).length = ls.length := by
  induction ls with
  | nil => rfl
  | cons a t ih =>
    cases t with
    | nil => rfl
    | cons b r => simpa [mapInit] using ih

theorem mem_mapInit (f : List Char → List Char) (ls : List (List Char)) :
    ∀ x ∈ mapInit f ls, ∃ y ∈ ls, x = f y ∨ x = y := by
  induction ls with
  | nil => intro x hx; simp [mapInit] at hx
  | cons a t ih =>
    cases t with
    | nil =>
      intro x hx
      simp only [mapInit, List.mem_singleton] at hx
      exact ⟨a, by simp, Or.inr hx⟩
    | cons b r =>
      intro x hx
      simp only [mapInit, List.mem_cons] at hx
      rcases hx with hx | hx
      · exact ⟨a, by simp, Or.inl hx⟩
      · rcases ih x hx with ⟨y, hy, hxy⟩
        exact ⟨y, List.mem_cons_of_mem _ hy, hxy⟩

theorem mapInit_eq_self (f : List Char → List Char) (ls : List (List Char))
    (h : ∀ l ∈ ls, f l = l) : mapInit f ls = ls := by
  induction ls with
  | nil => rfl
  | cons a t ih =>
    cases t with
    | nil => rfl
    | cons b r =>
      simp only [mapInit]
      rw [h a (by simp), ih fun l hl => h l (List.mem_cons_of_mem _ hl)]

theorem countNL_joinNL (ls : List (List Char)) (h : ∀ l ∈ ls, countNL l = 0) :
    countNL (joinNL ls) = ls.length - 1 := by
  induction ls with
  | nil => simp [joinNL, countNL]
  | cons a t ih =>
    cases t with
    | nil => simpa [joinNL] using h a (by simp)
    | cons b r =>
      have ha : countNL a = 0 := h a (by simp)
      have ht : ∀ l ∈ b :: r, countNL l = 0 :=
        fun l hl => h l (List.mem_cons_of_mem _ hl)
      simp only [joinNL, countNL, List.count_append, List.count_cons] at *
      simp [ha, ih ht, countNL, Nat.add_comm, Nat.succ_sub_one]

theorem countNL_stripCR (l : List Char) (h : countNL l = 0) :
    countNL (stripCR l) = 0 := by
  unfold stripCR
  by_cases hl : l.getLast? == some '\r'
  · simp only [hl, if_true]
    have := List.Sublist.count_le (a := '\n') (List.dropLast_sublist l)
    simpa [countNL] using Nat.le_antisymm (h ▸ this) (Nat.zero_le _)
  · simpa [hl] using h

theorem countNL_trimC (l : List Char) (h : countNL l = 0) :
    countNL (trimC l) = 0 := by
  unfold trimC
  have h1 : countNL (l.dropWhile isJsSpace) = 0 := by
    have := List.Sublist.count_le (a := '\n') (List.dropWhile_sublist (l := l) (p := isJsSpace))
    simpa [countNL] using Nat.le_antisymm (h ▸ this) (Nat.zero_le _)
  have h2 : countNL (l.dropWhile isJsSpace).reverse = 0 := by
    simpa [countNL, List.count_reverse] using h1
  have h3 : countNL ((l.dropWhile isJsSpace).reverse.dropWhile isJsSpace) = 0 := by
    have := List.Sublist.count_le (a := '\n')
      (List.dropWhile_sublist (l := (l.dropWhile isJsSpace).reverse) (p := isJsSpace))
    simpa [countNL] using Nat.le_antisymm (h2 ▸ this) (Nat.zero_le _)
  simpa [countNL, List.count_reverse] using h3

theorem countNL_sanitizeLineC (l : List Char) (h : countNL l = 0) :
    countNL (sanitizeLineC l) = 0 := by
  unfold sanitizeLineC
  by_cases hm : matchesForbiddenC l
  · have hc : countNL commentMark = 0 := by decide
    simp [hm, countNL, List.count_append]
    constructor
    · simpa [countNL] using hc
    · simpa [countNL] using countNL_trimC l h
  · simpa [hm] using h

theorem countNL_splitRN (s : List Char) :
    ∀ l ∈ splitRN s, countNL l = 0 := by
  intro l hl
  rcases mem_mapInit stripCR (splitNL s []) l hl with ⟨y, hy, hxy⟩
  have hy0 : countNL y = 0 := splitNL_countNL s [] (by simp [countNL]) y hy
  rcases hxy with h | h
  · subst h; exact countNL_stripCR y hy0
  · subst h; exact hy0

theorem splitRN_length (s : List Char) : (splitRN s).length = countNL s + 1 := by
  unfold splitRN
  rw [mapInit_length, splitNL_length]

theorem splitRN_ne_nil (s : List Char) : splitRN s ≠ [] := by
  intro h
  have := splitRN_length s
  rw [h] at this
  simp at this

theorem stripCR_eq_self (l : List Char) (h : l.getLast? ≠ some '\r') :
    stripCR l = l := by
  unfold stripCR
  have hb : (l.getLast? == some '\r') = false := beq_eq_false_iff_ne.mpr h
  simp [hb]

theorem head_dropWhile_not (p : Char → Bool) (l : List Char) :
    ∀ c, (l.dropWhile p).head? = some c → p c = false := by
  induction l with
  | nil => intro c hc; simp [List.dropWhile] at hc
  | cons a t ih =>
    intro c hc
    by_cases hp : p a
    · rw [List.dropWhile_cons_of_pos hp] at hc
      exact ih c hc
    · rw [List.dropWhile_cons_of_neg hp] at hc
      simp only [List.head?_cons, Option.some.injEq] at hc
      subst hc
      simpa using hp

theorem trimC_getLast_not_space (l : List Char) (c : Char)
    (h : (trimC l).getLast? = some c) : isJsSpace c = false := by
  unfold trimC at h
  rw [List.getLast?_reverse] at h
  exact head_dropWhile_not isJsSpace _ c h

theorem sanitizeLineC_getLast_ne_cr (l : List Char) (h : l.getLast? ≠ some '\r') :
    (sanitizeLineC l).getLast? ≠ some '\r' := by
  unfold sanitizeLineC
  by_cases hm : matchesForbiddenC l
  · simp only [hm, if_true]
    cases ht : trimC l with
    | nil =>
      intro hc
      simp only [List.append_nil] at hc
      have : commentMark.getLast? = some ' ' := by decide
      rw [this] at hc
      simp at hc
    | cons a t =>
      intro hc
      rw [List.getLast?_append_cons] at hc
      rw [← ht] at hc
      have := trimC_getLast_not_space l '\r' hc
      simp [isJsSpace] at this
  · simpa [hm] using h

theorem splitNL_joinNL (ls : List (List Char)) (hne : ls ≠ [])
    (h : ∀ l ∈ ls, countNL l = 0) : splitNL (joinNL ls) [] = ls := by
  induction ls with
  | nil => exact absurd rfl hne
  | cons a t ih =>
    cases t with
    | nil =>
      simpa [joinNL] using splitNL_of_countNL_zero a (h a (by simp)) []
    | cons b r =>
      have ha : countNL a = 0 := h a (by simp)
      have step := splitNL_append_newline a ha [] (joinNL (b :: r))
      simp only [joinNL] at *
      rw [step, ih (by simp) fun l hl => h l (List.mem_cons_of_mem _ hl)]
      simp

theorem splitRN_joinNL (ls : List (List Char)) (hne : ls ≠ [])
    (h0 : ∀ l ∈ ls, countNL l = 0) (hcr : ∀ l ∈ ls, l.getLast? ≠ some '\r') :
    splitRN (joinNL ls) = ls := by
  unfold splitRN
  rw [splitNL_joinNL ls hne h0]
  exact mapInit_eq_self _ _ fun l hl => stripCR_eq_self l (hcr l hl)

/-! ## Claim C8: the sanitizer's line structure -/

/-- C8: for every input source string, the sanitizer output has exactly the
same number of lines as the input; and (for inputs whose lines carry no stray
trailing carriage return, which the `\n`-rejoin would otherwise merge into
the following separator) the output's line list is exactly the input's line
list mapped through the per-line step — each line matching the
forbidden-pattern set replaced by the single comment line, each other line
passed through unchanged. -/
theorem c8_theorem (s : String) :
    (splitLinesRN (sanitizeWebpackHelpers s)).length = (splitLinesRN s).length ∧
    ((∀ l ∈ splitLinesRN s, l.data.getLast? ≠ some '\r') →
      splitLinesRN (sanitizeWebpackHelpers s) = (splitLinesRN s).map sanitizeLine) := by
  have hdata : (sanitizeWebpackHelpers s).data = joinNL ((splitRN s.data).map sanitizeLineC) := rfl
  have hz : ∀ l ∈ (splitRN s.data).map sanitizeLineC, countNL l = 0 := by
    intro l hl
    rcases List.mem_map.mp hl with ⟨l0, hl0, rfl⟩
    exact countNL_sanitizeLineC l0 (countNL_splitRN s.data l0 hl0)
  constructor
  · have h1 : (splitLinesRN (sanitizeWebpackHelpers s)).length =
        countNL (sanitizeWebpackHelpers s).data + 1 := by
      unfold splitLinesRN
      rw [List.length_map, splitRN_length]
    have h2 : countNL (sanitizeWebpackHelpers s).data =
        ((splitRN s.data).map sanitizeLineC).length - 1 := by
      rw [hdata]
      exact countNL_joinNL _ hz
    have h3 : ((splitRN s.data).map sanitizeLineC).length = countNL s.data + 1 := by
      rw [List.length_map, splitRN_length]
    have h4 : (splitLinesRN s).length = countNL s.data + 1 := by
      unfold splitLinesRN
      rw [List.length_map, splitRN_length]
    rw [h1, h2, h3, h4]
    omega
  · intro hcr
    have hcrC : ∀ l ∈ splitRN s.data, l.getLast? ≠ some '\r' := by
      intro l hl
      have : String.mk l ∈ splitLinesRN s := List.mem_map.mpr ⟨l, hl, rfl⟩
      exact hcr (String.mk l) this
    have hcr' : ∀ l ∈ (splitRN s.data).map sanitizeLineC, l.getLast? ≠ some '\r' := by
      intro l hl
      rcases List.mem_map.mp hl with ⟨l0, hl0, rfl⟩
      exact sanitizeLineC_getLast_ne_cr l0 (hcrC l0 hl0)
    have hne : (splitRN s.data).map sanitizeLineC ≠ [] := by
      intro h
      exact splitRN_ne_nil s.data (List.map_eq_nil_iff.mp h)
    have hsplit : splitRN (sanitizeWebpackHelpers s).data =
        (splitRN s.data).map sanitizeLineC := by
      rw [hdata]
      exact splitRN_joinNL _ hne hz hcr'
    unfold splitLinesRN
    rw [hsplit, List.map_map, List.map_map]
    rfl

/-- C8 witness: the three-line input with a leaked helper line in the middle
keeps its three lines, the middle one commented out. -/
theorem c8_witness :
    (splitLinesRN (sanitizeWebpackHelpers srcW8)).length = (splitLinesRN srcW8).length ∧
    splitLinesRN (sanitizeWebpackHelpers srcW8) = (splitLinesRN srcW8).map sanitizeLine :=
  ⟨(c8_theorem srcW8).1, (c8_theorem srcW8).2 (by decide)⟩

/-! ## Claim C1: forbidden substrings in the assembled artifact -/

set_option maxRecDepth 10000 in
/-- C1 counterexample: a build whose generated module source contains the
line `var __webpack_exports__ = {};` completes successfully, and the
assembled `.gs` artifact still matches the forbidden-pattern set — the
sanitizer keeps the offending line's text inside its replacement comment
line, so the artifact's byte content does contain the `__webpack_`
substring. -/
theorem c1_counterexample :
    (runEmitter compC1 optsStd).isOk = true ∧
    matchesForbidden (getModuleSource compC1 0 .undef) = true ∧
    matchesForbidden outC1 = true := by
  refine ⟨rfl, rfl, rfl⟩

/-- C1 amended: the sanitizer does not erase forbidden text; it only
guarantees that, in the sanitized module source, every line still matching
the forbidden-pattern set is a sanitizer comment line (it starts with the
`// [dropped-by-gas-demodulify]: ` lead-in).  Forbidden substrings can
therefore survive into the assembled artifact, but only inside such comment
lines of the sanitized source. -/
theorem c1_theorem (s l : String) (hl : l ∈ (splitLinesRN s).map sanitizeLine)
    (hm : matchesForbidden l = true) :
    strStartsWith l "// [dropped-by-gas-demodulify]: " = true := by
  rcases List.mem_map.mp hl with ⟨l0, _, rfl⟩
  by_cases h : matchesForbiddenC l0.data
  · have hline : sanitizeLineC l0.data = commentMark ++ trimC l0.data := by
      unfold sanitizeLineC
      rw [if_pos h]
    show ("// [dropped-by-gas-demodulify]: ".data).isPrefixOf (sanitizeLineC l0.data) = true
    rw [hline]
    exact isPrefixOf_append_self commentMark (trimC l0.data)
  · have hline : sanitizeLineC l0.data = l0.data := by
      unfold sanitizeLineC
      rw [if_neg h]
    have : matchesForbidden (sanitizeLine l0) = matchesForbiddenC l0.data := by
      unfold matchesForbidden sanitizeLine
      rw [hline]
    rw [hm] at this
    exact absurd this.symm (by simpa using h)

/-- C1 witness for the amended statement: the sanitized helper line still
matches the forbidden set and starts with the comment lead-in. -/
theorem c1_witness :
    sanitizeLine lineW1 ∈ (splitLinesRN lineW1).map sanitizeLine ∧
    matchesForbidden (sanitizeLine lineW1) = true ∧
    strStartsWith (sanitizeLine lineW1) "// [dropped-by-gas-demodulify]: " = true :=
  ⟨by decide, by decide,
    c1_theorem lineW1 (sanitizeLine lineW1) (by decide) (by decide)⟩

/-! ## Claim C2: the emission set -/

theorem mem_insertUniq (l : List ModuleId) (a x : ModuleId) :
    x ∈ insertUniq l a ↔ x ∈ l ∨ x = a := by
  unfold insertUniq
  by_cases h : a ∈ l
  · simp only [h, if_true]
    constructor
    · exact Or.inl
    · rintro (hx | rfl)
      · exact hx
      · exact h
  · simp [h]

theorem mem_foldl_insertUniq (l : List ModuleId) :
    ∀ init x, x ∈ l.foldl insertUniq init ↔ x ∈ init ∨ x ∈ l := by
  induction l with
  | nil => simp
  | cons a t ih =>
    intro init x
    simp only [List.foldl_cons]
    rw [ih, mem_insertUniq]
    simp only [List.mem_cons]
    tauto

/-- C2 counterexample: the entry module's `foo` binding re-exports from
module 1 (its defining module by the `getTarget` chain), but module 1 is in
no entry chunk; `collectModulesToEmit` neither adds it to the emission set
nor fails — the run even completes. -/
theorem c2_counterexample :
    specDefiningModule compC2 8 0 "foo" = some 1 ∧
    resolveTsEntrypoint compC2 = .ok entryOk ∧
    ¬(1 ∈ collectModulesToEmit compC2 entryOk) ∧
    (runEmitter compC2 optsStd).isOk = true :=
  ⟨rfl, rfl, by decide, rfl⟩

/-- C2 amended: `collectModulesToEmit` performs no per-binding
defining-module resolution at all; the emission set is exactly the entry
module together with every module of the entry's chunks (deduplicated), and
the collector can never fail.  A binding whose defining module was
tree-shaken out of the chunks is silently not covered here (the later
runtime-definition assertion is what catches the dangling identifier). -/
theorem c2_theorem (comp : CompilationM) (entry : ResolvedEntrypointM) (m : ModuleId) :
    m ∈ collectModulesToEmit comp entry ↔
      m = entry.entryModule ∨ ∃ c ∈ entry.chunks, m ∈ c.modules := by
  unfold collectModulesToEmit
  rw [mem_foldl_insertUniq]
  simp only [List.mem_singleton, List.mem_flatten, List.mem_map]
  constructor
  · rintro (rfl | ⟨l, ⟨c, hc, rfl⟩, hm⟩)
    · exact Or.inl rfl
    · exact Or.inr ⟨c, hc, hm⟩
  · rintro (rfl | ⟨c, hc, hm⟩)
    · exact Or.inl rfl
    · exact Or.inr ⟨c.modules, ⟨c, hc, rfl⟩, hm⟩

/-- C2 witness for the amended statement: in the counterexample state, the
emission set is exactly `[0]` — the entry module, which is also the single
chunk module. -/
theorem c2_witness :
    (0 ∈ collectModulesToEmit compC2 entryOk) ∧ ¬(2 ∈ collectModulesToEmit compC2 entryOk) :=
  ⟨(c2_theorem compC2 entryOk 0).mpr (Or.inl rfl),
    fun h => by
      rcases (c2_theorem compC2 entryOk 2).mp h with h | ⟨c, hc, hm⟩
      · exact absurd h (by decide)
      · rcases List.mem_singleton.mp hc with rfl
        exact absurd hm (by decide)⟩

/-! ## Claim C5: default-export binding names -/

/-- C5: every binding the export-surface resolver derives from a `default`
export carries the configured `defaultExportName` (falling back to
`defaultExport`) as its namespace-facing name and always `defaultExport` as
its local runtime identifier; and an entry module with a `default` export
does yield such a binding. -/
theorem c5_theorem (comp : CompilationM) (m : ModuleId) (opts : EmitterOptsM) :
    (∀ b ∈ getExportBindings comp m opts, b.webpackExportName = "default" →
      b.exportName = (opts.defaultExportName).getD "defaultExport" ∧
        b.localName = "defaultExport") ∧
    ((∃ i ∈ (comp.exportsInfoOf m).orderedExports, i.name = "default") →
      ∃ b ∈ getExportBindings comp m opts, b.webpackExportName = "default") := by
  constructor
  · intro b hb hdef
    rcases List.mem_filterMap.mp hb with ⟨i, _, hbi⟩
    unfold bindingOf at hbi
    split_ifs at hbi with h1 h2
    · injection hbi with hbi
      subst hbi
      exact ⟨rfl, rfl⟩
    · injection hbi with hbi
      subst hbi
      exact absurd (beq_iff_eq.mpr hdef) (by simpa using h2)
  · rintro ⟨i, hi, hname⟩
    refine ⟨⟨(opts.defaultExportName).getD "defaultExport", "defaultExport", "default"⟩,
      List.mem_filterMap.mpr ⟨i, hi, ?_⟩, rfl⟩
    unfold bindingOf
    rw [hname]
    rfl

/-- The `default`-export binding produced under `defaultExportName: "main"`. -/
def bMain : ExportBindingM :=
  { exportName := "main", localName := "defaultExport", webpackExportName := "default" }

/-- C5 witness: with `defaultExportName: "main"`, the default export binds
under `main` while its local identifier stays `defaultExport`. -/
theorem c5_witness :
    bMain ∈ getExportBindings compC3 0 optsMain ∧
    bMain.exportName = (optsMain.defaultExportName).getD "defaultExport" ∧
    bMain.localName = "defaultExport" ∧
    bMain.exportName = "main" := by
  have h := (c5_theorem compC3 0 optsMain).1 bMain (by decide) rfl
  exact ⟨by decide, h.1, h.2, rfl⟩

/-! ## Claim C9: empty export surface -/

/-- C9: the `__esModule` interop flag never yields a binding; and when the
entry module's resolved binding list is empty (the earlier stages having
passed), the run fails with the no-exported-symbols error and the asset map
is left untouched — no artifact is emitted. -/
theorem c9_theorem (comp : CompilationM) (opts : EmitterOptsM) :
    (∀ m, ∀ b ∈ getExportBindings comp m opts, b.webpackExportName ≠ "__esModule") ∧
    (∀ entry, resolveTsEntrypoint comp = .ok entry →
      assertNoAliasedReexportsInEntry comp entry.entryModule = .ok () →
      assertNoWildcardReexports comp entry = .ok () →
      getExportBindings comp entry.entryModule opts = [] →
      runEmitter comp opts = .error .noExportedSymbols ∧
        assetsAfter comp opts = comp.assets) := by
  constructor
  · intro m b hb
    rcases List.mem_filterMap.mp hb with ⟨i, _, hbi⟩
    unfold bindingOf at hbi
    split_ifs at hbi with h1 h2
    · injection hbi with hbi
      subst hbi
      intro h
      simp at h
    · injection hbi with hbi
      subst hbi
      intro h
      exact absurd (beq_iff_eq.mpr h) (by simpa using h1)
  · intro entry h1 h2 h3 h4
    have hrun : runEmitter comp opts = .error .noExportedSymbols := by
      unfold runEmitter
      rw [h1]
      simp [h2, h3, h4]
    refine ⟨hrun, ?_⟩
    unfold assetsAfter
    rw [hrun]

/-- C9 witness: a build exposing only `__esModule` fails with the
no-exported-symbols error and leaves the assets untouched. -/
theorem c9_witness :
    runEmitter compC9 optsStd = .error .noExportedSymbols ∧
    assetsAfter compC9 optsStd = compC9.assets :=
  (c9_theorem compC9 optsStd).2 entryOk rfl rfl rfl rfl

/-! ## The wildcard scan: shape and trigger lemmas -/

theorem scanModuleWildcard_shape (comp : CompilationM) (m : ModuleId) :
    scanModuleWildcard comp m = .ok () ∨
      ∃ d, scanModuleWildcard comp m = .error (.unsupportedWildcard d) := by
  unfold scanModuleWildcard
  dsimp only
  split
  · exact Or.inr ⟨_, rfl⟩
  · split
    · exact Or.inr ⟨_, rfl⟩
    · exact Or.inl rfl

theorem scanModuleWildcard_ok_iff (comp : CompilationM) (m : ModuleId) :
    scanModuleWildcard comp m = .ok () ↔ wildcardHit comp m = false := by
  rcases hres : comp.resourceOf m with _ | p
  · by_cases hop : (comp.exportsInfoOf m).otherProvided == some (some true) <;>
      simp [scanModuleWildcard, wildcardHit, hres, hop]
  · by_cases hts : isTsPath p
    · rcases hfs : fsRead comp (absPathOf comp p) with _ | content
      · by_cases hop : (comp.exportsInfoOf m).otherProvided == some (some true) <;>
          simp [scanModuleWildcard, wildcardHit, hres, hts, hfs, hop]
      · by_cases hmw : matchesWildcard content
        · simp [scanModuleWildcard, wildcardHit, hres, hts, hfs, hmw]
        · by_cases hop : (comp.exportsInfoOf m).otherProvided == some (some true) <;>
            simp [scanModuleWildcard, wildcardHit, hres, hts, hfs, hmw, hop]
    · by_cases hop : (comp.exportsInfoOf m).otherProvided == some (some true) <;>
        simp [scanModuleWildcard, wildcardHit, hres, hts, hop]

theorem scanModulesWildcard_cons_ok_iff (comp : CompilationM) (m : ModuleId)
    (ms : List ModuleId) :
    scanModulesWildcard comp (m :: ms) = .ok () ↔
      scanModuleWildcard comp m = .ok () ∧ scanModulesWildcard comp ms = .ok () := by
  cases hsc : scanModuleWildcard comp m <;> simp [scanModulesWildcard, hsc]

theorem scanModulesWildcard_ok_iff (comp : CompilationM) (ms : List ModuleId) :
    scanModulesWildcard comp ms = .ok () ↔ ∀ m ∈ ms, wildcardHit comp m = false := by
  induction ms with
  | nil => simp [scanModulesWildcard]
  | cons m ms ih =>
    rw [scanModulesWildcard_cons_ok_iff, ih, scanModuleWildcard_ok_iff]
    simp

theorem scanChunksWildcard_cons_ok_iff (comp : CompilationM) (c : ChunkM)
    (cs : List ChunkM) :
    scanChunksWildcard comp (c :: cs) = .ok () ↔
      scanModulesWildcard comp c.modules = .ok () ∧ scanChunksWildcard comp cs = .ok () := by
  cases hsc : scanModulesWildcard comp c.modules <;> simp [scanChunksWildcard, hsc]

theorem scanChunksWildcard_ok_iff (comp : CompilationM) (cs : List ChunkM) :
    scanChunksWildcard comp cs = .ok () ↔
      ∀ c ∈ cs, ∀ m ∈ c.modules, wildcardHit comp m = false := by
  induction cs with
  | nil => simp [scanChunksWildcard]
  | cons c cs ih =>
    rw [scanChunksWildcard_cons_ok_iff, ih, scanModulesWildcard_ok_iff]
    simp

theorem scanModulesWildcard_shape (comp : CompilationM) (ms : List ModuleId) :
    scanModulesWildcard comp ms = .ok () ∨
      ∃ d, scanModulesWildcard comp ms = .error (.unsupportedWildcard d) := by
  induction ms with
  | nil => exact Or.inl rfl
  | cons m ms ih =>
    rcases scanModuleWildcard_shape comp m with h | ⟨d, h⟩
    · simpa [scanModulesWildcard, h] using ih
    · exact Or.inr ⟨d, by simp [scanModulesWildcard, h]⟩

theorem scanChunksWildcard_shape (comp : CompilationM) (cs : List ChunkM) :
    scanChunksWildcard comp cs = .ok () ∨
      ∃ d, scanChunksWildcard comp cs = .error (.unsupportedWildcard d) := by
  induction cs with
  | nil => exact Or.inl rfl
  | cons c cs ih =>
    rcases scanModulesWildcard_shape comp c.modules with h | ⟨d, h⟩
    · simpa [scanChunksWildcard, h] using ih
    · exact Or.inr ⟨d, by simp [scanChunksWildcard, h]⟩

/-! ## Claim C4: absent files -/

/-- C4 counterexample: when the entry module's resource path names a file
absent from disk, the aliased re-export scan raises an I/O error (its
`fs.readFileSync` call is unguarded), and the whole run fails with that I/O
error rather than treating the absent file as "no match". -/
theorem c4_counterexample :
    fsExists compC4 "/p/gone.ts" = false ∧
    assertNoAliasedReexportsInEntry compC4 0 = .error (.ioErr "/p/gone.ts") ∧
    runEmitter compC4 optsStd = .error (.ioErr "/p/gone.ts") :=
  ⟨rfl, rfl, rfl⟩

/-- C4 amended: only the wildcard re-export scan is defensive about absent
files — it can never produce an I/O error, for any compilation state; the
aliased re-export scan of the entry module, by contrast, reads the entry
file unconditionally and raises an I/O error whenever the entry module's
resource path names an absent file. -/
theorem c4_theorem :
    (∀ (comp : CompilationM) (entry : ResolvedEntrypointM) (p : String),
      assertNoWildcardReexports comp entry ≠ .error (.ioErr p)) ∧
    (∀ (comp : CompilationM) (m : ModuleId) (p : String),
      comp.resourceOf m = some p → fsRead comp p = none →
      assertNoAliasedReexportsInEntry comp m = .error (.ioErr p)) := by
  constructor
  · intro comp entry p
    rcases scanChunksWildcard_shape comp entry.chunks with h | ⟨d, h⟩
    · intro habs
      rw [show assertNoWildcardReexports comp entry = scanChunksWildcard comp entry.chunks
          from rfl, h] at habs
      simp at habs
    · intro habs
      rw [show assertNoWildcardReexports comp entry = scanChunksWildcard comp entry.chunks
          from rfl, h] at habs
      simp at habs
  · intro comp m p hres hfs
    simp [assertNoAliasedReexportsInEntry, hres, hfs]

/-- C4 witness for the amended statement: the absent entry file makes the
aliased scan raise the I/O error, while the wildcard scan of the same state
cannot produce one. -/
theorem c4_witness :
    assertNoAliasedReexportsInEntry compC4 0 = .error (.ioErr "/p/gone.ts") ∧
    assertNoWildcardReexports compC4 entryOk ≠ .error (.ioErr "/p/gone.ts") :=
  ⟨c4_theorem.2 compC4 0 "/p/gone.ts" rfl rfl, c4_theorem.1 compC4 entryOk "/p/gone.ts"⟩

/-! ## Claim C6: wildcard re-exports abort the run -/

theorem scanModuleWildcard_update (comp : CompilationM)
    (g : ModuleId → RuntimeSpecM → Option String) (m : ModuleId) :
    scanModuleWildcard { comp with codeGenOf := g } m = scanModuleWildcard comp m := rfl

theorem scanModulesWildcard_update (comp : CompilationM)
    (g : ModuleId → RuntimeSpecM → Option String) (ms : List ModuleId) :
    scanModulesWildcard { comp with codeGenOf := g } ms = scanModulesWildcard comp ms := by
  induction ms with
  | nil => rfl
  | cons m ms ih => simp [scanModulesWildcard, scanModuleWildcard_update, ih]

theorem scanChunksWildcard_update (comp : CompilationM)
    (g : ModuleId → RuntimeSpecM → Option String) (cs : List ChunkM) :
    scanChunksWildcard { comp with codeGenOf := g } cs = scanChunksWildcard comp cs := by
  induction cs with
  | nil => rfl
  | cons c cs ih => simp [scanChunksWildcard, scanModulesWildcard_update, ih]

theorem runEmitter_wildcard_error (comp : CompilationM) (opts : EmitterOptsM)
    (entry : ResolvedEntrypointM) (e : EmitError)
    (h1 : resolveTsEntrypoint comp = .ok entry)
    (h2 : assertNoAliasedReexportsInEntry comp entry.entryModule = .ok ())
    (h3 : assertNoWildcardReexports comp entry = .error e) :
    runEmitter comp opts = .error e := by
  unfold runEmitter
  rw [h1]
  simp [h2, h3]

/-- C6: when some module of the resolved entry's chunks trips the wildcard
detectors (its existing `.ts`/`.tsx` source matches the `export *` forms, or
its other-exports flag is reported provided), the run fails with the
unsupported-wildcard error, the asset map is untouched (zero artifacts), and
the outcome is independent of the code-generation results — no module source
is read for concatenation. -/
theorem c6_theorem (comp : CompilationM) (opts : EmitterOptsM)
    (entry : ResolvedEntrypointM)
    (h1 : resolveTsEntrypoint comp = .ok entry)
    (h2 : assertNoAliasedReexportsInEntry comp entry.entryModule = .ok ())
    (hhit : ∃ c ∈ entry.chunks, ∃ m ∈ c.modules, wildcardHit comp m = true) :
    (∃ d, runEmitter comp opts = .error (.unsupportedWildcard d)) ∧
    assetsAfter comp opts = comp.assets ∧
    ∀ g, runEmitter { comp with codeGenOf := g } opts = runEmitter comp opts := by
  have hnok : scanChunksWildcard comp entry.chunks ≠ .ok () := by
    intro hok
    rcases hhit with ⟨c, hc, m, hm, hw⟩
    have := (scanChunksWildcard_ok_iff comp entry.chunks).mp hok c hc m hm
    rw [hw] at this
    exact absurd this (by simp)
  rcases scanChunksWildcard_shape comp entry.chunks with hok | ⟨d, herr⟩
  · exact absurd hok hnok
  · have hrun : runEmitter comp opts = .error (.unsupportedWildcard d) :=
      runEmitter_wildcard_error comp opts entry _ h1 h2 herr
    refine ⟨⟨d, hrun⟩, ?_, ?_⟩
    · unfold assetsAfter
      rw [hrun]
    · intro g
      have h1g : resolveTsEntrypoint { comp with codeGenOf := g } = .ok entry := h1
      have h2g : assertNoAliasedReexportsInEntry { comp with codeGenOf := g }
          entry.entryModule = .ok () := h2
      have herrg : assertNoWildcardReexports { comp with codeGenOf := g } entry =
          .error (.unsupportedWildcard d) := by
        show scanChunksWildcard { comp with codeGenOf := g } entry.chunks = _
        rw [scanChunksWildcard_update]
        exact herr
      rw [runEmitter_wildcard_error _ opts entry _ h1g h2g herrg, hrun]

/-- C6 witness: the build reaching `export * from './x';` in `/p/m.ts` fails
with the unsupported-wildcard error and writes nothing. -/
theorem c6_witness :
    runEmitter compC6 optsStd = .error (.unsupportedWildcard "/p/m.ts") ∧
    assetsAfter compC6 optsStd = compC6.assets := by
  have h := c6_theorem compC6 optsStd entryC6 rfl rfl (by decide)
  exact ⟨rfl, h.2.1⟩

/-! ## Claim C3: missing runtime definitions -/

theorem findMissingRuntimeDef_ne_none (exports : List ExportBindingM) (source : String)
    (h : ∃ b ∈ exports, b.webpackExportName ≠ "default" ∧
      hasRuntimeDefinition b.localName source = false) :
    ∃ n, findMissingRuntimeDef exports source = some n := by
  cases hf : findMissingRuntimeDef exports source with
  | some n => exact ⟨n, rfl⟩
  | none =>
    rcases h with ⟨b, hb, hdef, hrt⟩
    have hall := List.findSome?_eq_none_iff.mp hf b hb
    simp [beq_eq_false_iff_ne.mpr hdef, hrt] at hall

/-- The binding a default export produces under the fallback name. -/
def bDefault : ExportBindingM :=
  { exportName := "defaultExport", localName := "defaultExport",
    webpackExportName := "default" }

set_option maxRecDepth 10000 in
/-- C3 counterexample: a build whose only export is a default export, whose
generated source never defines `defaultExport`, still completes and emits an
artifact carrying the dangling assignment
`globalThis.MYADDON.GAS.defaultExport = defaultExport;` — the
runtime-definition assertion skips default-export bindings. -/
theorem c3_counterexample :
    bDefault ∈ getExportBindings compC3 0 optsStd ∧
    hasRuntimeDefinition bDefault.localName
      (getCombinedModuleSource compC3 (collectModulesToEmit compC3 entryOk)
        entryOk.runtime) = false ∧
    (runEmitter compC3 optsStd).isOk = true ∧
    strContains outC3 "globalThis.MYADDON.GAS.defaultExport = defaultExport;" = true :=
  ⟨by decide, rfl, rfl, rfl⟩

/-- C3 amended: when some *non-default* export binding's local identifier has
no `function`/`class`/`const`/`let`/`var` definition in the concatenated
module source, the run fails with the missing-runtime-definition error and
the asset map is untouched — no artifact with a dangling assignment is
emitted.  Default-export bindings are exempt from this check (see the
counterexample). -/
theorem c3_theorem (comp : CompilationM) (opts : EmitterOptsM)
    (entry : ResolvedEntrypointM)
    (h1 : resolveTsEntrypoint comp = .ok entry)
    (h2 : assertNoAliasedReexportsInEntry comp entry.entryModule = .ok ())
    (h3 : assertNoWildcardReexports comp entry = .ok ())
    (hmiss : ∃ b ∈ getExportBindings comp entry.entryModule opts,
      b.webpackExportName ≠ "default" ∧
      hasRuntimeDefinition b.localName
        (getCombinedModuleSource comp (collectModulesToEmit comp entry)
          entry.runtime) = false) :
    (∃ n, runEmitter comp opts = .error (.missingRuntimeDefinition n)) ∧
    assetsAfter comp opts = comp.assets := by
  obtain ⟨n, hf⟩ := findMissingRuntimeDef_ne_none _ _ hmiss
  have hlen : ¬(getExportBindings comp entry.entryModule opts).length = 0 := by
    rcases hmiss with ⟨b, hb, _⟩
    intro h0
    rw [List.length_eq_zero.mp h0] at hb
    exact absurd hb (by simp)
  have hrun : runEmitter comp opts = .error (.missingRuntimeDefinition n) := by
    unfold runEmitter
    rw [h1]
    simp [h2, h3, hlen, assertAllExportsHaveRuntimeDefinitions, hf]
  refine ⟨⟨n, hrun⟩, ?_⟩
  unfold assetsAfter
  rw [hrun]

/-- C3 witness for the amended statement: a build exporting `foo` whose
source only defines `bar` fails with the missing-runtime-definition error
and writes nothing. -/
theorem c3_witness :
    runEmitter compW3 optsStd = .error (.missingRuntimeDefinition "foo") ∧
    assetsAfter compW3 optsStd = compW3.assets := by
  have h := c3_theorem compW3 optsStd entryOk rfl rfl rfl (by decide)
  exact ⟨rfl, h.2⟩

/-! ## Claim C7: entrypoint cardinality -/

theorem length_filterMap_map_eq_length_filter {α β γ : Type} (h : α → Option β)
    (g : α → β → γ) (l : List α) :
    (l.filterMap fun a => (h a).map (g a)).length =
      (l.filter fun a => (h a).isSome).length := by
  induction l with
  | nil => rfl
  | cons a t ih =>
    cases hha : h a <;> simp [List.filterMap_cons, List.filter_cons, hha, ih]

theorem candidatesOf_length (comp : CompilationM) :
    (candidatesOf comp).length = countTsChunkHits comp := by
  unfold candidatesOf countTsChunkHits
  rw [List.length_flatten, List.map_map]
  congr 1
  refine List.map_congr_left fun named _ => ?_
  exact length_filterMap_map_eq_length_filter (firstTsEntryModule comp)
    (fun chunk m => ResolvedEntrypointM.mk named.1 m chunk.runtime
      (chunksOfEntrypoint named.2)) (chunksOfEntrypoint named.2)

theorem mem_candidatesOf (comp : CompilationM) (c : ResolvedEntrypointM)
    (hc : c ∈ candidatesOf comp) :
    ∃ ep ∈ comp.entrypoints, ∃ ch ∈ chunksOfEntrypoint ep.2, ∃ m,
      firstTsEntryModule comp ch = some m ∧
      c = ResolvedEntrypointM.mk ep.1 m ch.runtime (chunksOfEntrypoint ep.2) := by
  unfold candidatesOf at hc
  rw [List.mem_flatten] at hc
  rcases hc with ⟨l, hl, hcl⟩
  rcases List.mem_map.mp hl with ⟨ep, hep, rfl⟩
  rcases List.mem_filterMap.mp hcl with ⟨ch, hch, hchc⟩
  rcases hm : firstTsEntryModule comp ch with _ | m
  · rw [hm] at hchc
    simp at hchc
  · rw [hm] at hchc
    simp only [Option.map_some'] at hchc
    injection hchc with hchc
    exact ⟨ep, hep, ch, hch, m, hm, hchc.symm⟩

/-- C7 counterexample: a compilation with exactly one candidate *entry point*
in the claim's sense (one entry point yielding TypeScript chunk-entry
modules) is nonetheless rejected: its two chunks each surface a TypeScript
entry module, the resolver builds one candidate per chunk, and it raises the
cardinality error naming `backend` twice. -/
theorem c7_counterexample :
    (specCandidateEntrypoints compC7).length = 1 ∧
    resolveTsEntrypoint compC7 = .error (.entrypointCardinality ["backend", "backend"]) :=
  ⟨rfl, rfl⟩

/-- C7 amended: the resolver's candidates are (entry point, chunk) pairs: one
candidate per chunk whose first TypeScript chunk-entry module exists.  With
zero such pairs it raises the no-entrypoint error; with exactly one it
returns that candidate (built from the pair); with two or more — even when
they all belong to a single entry point — it raises the cardinality error,
naming the entry name of every candidate (with repetitions). -/
theorem c7_theorem (comp : CompilationM) :
    (countTsChunkHits comp = 0 → resolveTsEntrypoint comp = .error .noTsEntrypoint) ∧
    (countTsChunkHits comp = 1 →
      ∃ c, resolveTsEntrypoint comp = .ok c ∧
        ∃ ep ∈ comp.entrypoints, ∃ ch ∈ chunksOfEntrypoint ep.2,
          firstTsEntryModule comp ch = some c.entryModule ∧
          c.entryName = ep.1 ∧ c.runtime = ch.runtime ∧
          c.chunks = chunksOfEntrypoint ep.2) ∧
    (2 ≤ countTsChunkHits comp →
      ∃ names, resolveTsEntrypoint comp = .error (.entrypointCardinality names) ∧
        names.length = countTsChunkHits comp) := by
  refine ⟨?_, ?_, ?_⟩
  · intro h0
    have hnil : candidatesOf comp = [] :=
      List.length_eq_zero.mp (by rw [candidatesOf_length]; exact h0)
    unfold resolveTsEntrypoint
    rw [hnil]
  · intro h1
    rcases List.length_eq_one.mp (by rw [candidatesOf_length]; exact h1 :
        (candidatesOf comp).length = 1) with ⟨c, hc⟩
    refine ⟨c, by unfold resolveTsEntrypoint; rw [hc], ?_⟩
    have hmem : c ∈ candidatesOf comp := by rw [hc]; simp
    rcases mem_candidatesOf comp c hmem with ⟨ep, hep, ch, hch, m, hm, hceq⟩
    subst hceq
    exact ⟨ep, hep, ch, hch, hm, rfl, rfl, rfl⟩
  · intro h2
    have hlen : 2 ≤ (candidatesOf comp).length := by rw [candidatesOf_length]; exact h2
    rcases hcs : candidatesOf comp with _ | ⟨a, t⟩
    · rw [hcs] at hlen
      simp at hlen
    · rcases ht : t with _ | ⟨b, r⟩
      · rw [hcs, ht] at hlen
        simp at hlen
      · subst ht
        refine ⟨(a :: b :: r).map ResolvedEntrypointM.entryName, ?_, ?_⟩
        · unfold resolveTsEntrypoint
          rw [hcs]
        · rw [List.length_map, ← hcs, candidatesOf_length]

/-- C7 witness for the amended statement: the two-chunk single entry point
counts two (entry point, chunk) hits and the resolver rejects the build. -/
theorem c7_witness :
    countTsChunkHits compC7 = 2 ∧ (resolveTsEntrypoint compC7).isOk = false := by
  rcases (c7_theorem compC7).2.2 (by decide) with ⟨names, herr, _⟩
  refine ⟨by decide, ?_⟩
  rw [herr]
  rfl

/-! ## Claim C10: asset bookkeeping -/

theorem lookupAsset_filter (q : String → Bool) (assets : List (String × String))
    (n : String) :
    lookupAsset n (assets.filter fun a => q a.1) =
      if q n = true then lookupAsset n assets else none := by
  induction assets with
  | nil => simp [lookupAsset]
  | cons a t ih =>
    rcases a with ⟨k, v⟩
    by_cases hq : q k = true
    · rw [List.filter_cons_of_pos (by simpa using hq)]
      by_cases hkn : (k == n) = true
      · have hkeq : k = n := eq_of_beq hkn
        subst hkeq
        simp [lookupAsset, hq]
      · simp [lookupAsset, hkn, ih]
    · rw [List.filter_cons_of_neg (by simpa using hq)]
      rw [ih]
      by_cases hqn : q n = true
      · have hkn : (k == n) = false := by
          refine beq_eq_false_iff_ne.mpr fun he => ?_
          rw [he] at hq
          exact hq hqn
        simp [lookupAsset, hqn, hkn]
      · simp [hqn]

theorem lookupAsset_map_replace_ne (assets : List (String × String))
    (name content n : String) (hne : n ≠ name) :
    lookupAsset n (assets.map fun a => if a.1 == name then (name, content) else a) =
      lookupAsset n assets := by
  induction assets with
  | nil => rfl
  | cons a t ih =>
    rcases a with ⟨k, v⟩
    by_cases hk : (k == name) = true
    · have hkeq : k = name := eq_of_beq hk
      subst hkeq
      rw [List.map_cons, if_pos hk]
      have h1 : ¬((k == n) = true) := by
        simp [beq_eq_false_iff_ne.mpr fun he => hne he.symm]
      simp only [lookupAsset]
      rw [if_neg h1, if_neg h1]
      exact ih
    · rw [List.map_cons, if_neg hk]
      simp only [lookupAsset]
      by_cases hkn : (k == n) = true
      · rw [if_pos hkn, if_pos hkn]
      · rw [if_neg hkn, if_neg hkn]
        exact ih

theorem lookupAsset_map_replace_eq (assets : List (String × String))
    (name content : String) (hany : (assets.any fun a => a.1 == name) = true) :
    lookupAsset name (assets.map fun a => if a.1 == name then (name, content) else a) =
      some content := by
  induction assets with
  | nil => simp at hany
  | cons a t ih =>
    rcases a with ⟨k, v⟩
    by_cases hk : (k == name) = true
    · rw [List.map_cons, if_pos hk]
      simp [lookupAsset]
    · rw [List.map_cons, if_neg hk]
      have hany' : (t.any fun a => a.1 == name) = true := by
        simpa [List.any_cons, hk] using hany
      simp only [lookupAsset]
      rw [if_neg hk]
      exact ih hany' 

theorem lookupAsset_none_of_not_any (assets : List (String × String)) (name : String)
    (hany : (assets.any fun a => a.1 == name) = false) :
    lookupAsset name assets = none := by
  induction assets with
  | nil => rfl
  | cons a t ih =>
    rcases a with ⟨k, v⟩
    simp only [List.any_cons, Bool.or_eq_false_iff] at hany
    simp [lookupAsset, hany.1, ih hany.2]

theorem lookupAsset_append_single_ne (assets : List (String × String))
    (name content n : String) (hne : n ≠ name) :
    lookupAsset n (assets ++ [(name, content)]) = lookupAsset n assets := by
  induction assets with
  | nil => simp [lookupAsset, beq_eq_false_iff_ne.mpr fun he => hne he.symm]
  | cons a t ih =>
    by_cases hk : (a.1 == n) = true <;> simp [lookupAsset, hk, ih]

theorem lookupAsset_append_found (assets : List (String × String))
    (name content : String) (h0 : lookupAsset name assets = none) :
    lookupAsset name (assets ++ [(name, content)]) = some content := by
  induction assets with
  | nil => simp [lookupAsset]
  | cons a t ih =>
    by_cases hk : (a.1 == name) = true
    · simp [lookupAsset, hk] at h0
    · simp only [lookupAsset, hk, Bool.false_eq_true, if_false] at h0
      simp [lookupAsset, hk, ih h0]

theorem lookupAsset_emitAsset (assets : List (String × String))
    (name content n : String) :
    lookupAsset n (emitAsset assets name content) =
      if n = name then some content else lookupAsset n assets := by
  unfold emitAsset
  cases hany : (assets.any fun a => a.1 == name) with
  | true =>
    simp only [hany, if_true]
    by_cases hn : n = name
    · subst hn
      rw [if_pos rfl]
      exact lookupAsset_map_replace_eq assets n content hany
    · rw [if_neg hn]
      exact lookupAsset_map_replace_ne assets name content n hn
  | false =>
    simp only [hany, Bool.false_eq_true, if_false]
    by_cases hn : n = name
    · subst hn
      rw [if_pos rfl]
      exact lookupAsset_append_found assets n content
        (lookupAsset_none_of_not_any assets n hany)
    · rw [if_neg hn]
      exact lookupAsset_append_single_ne assets name content n hn

/-- `lookupAsset` through `cleanupUnwantedOutputFiles`. -/
theorem lookupAsset_cleanup (assets : List (String × String)) (n : String) :
    lookupAsset n (cleanupUnwantedOutputFiles assets) =
      if (!(strEndsWith n ".js" || n == OUTPUT_BUNDLE_FILENAME_TO_DELETE)) = true
      then lookupAsset n assets else none :=
  lookupAsset_filter
    (fun x => !(strEndsWith x ".js" || x == OUTPUT_BUNDLE_FILENAME_TO_DELETE)) assets n

theorem gs_not_js (e : String) : strEndsWith (e ++ ".gs") ".js" = false := by
  show (".js".data).isSuffixOf (e ++ ".gs").data = false
  rw [String.data_append]
  show (['.', 'j', 's'] : List Char).isSuffixOf (e.data ++ ['.', 'g', 's']) = false
  unfold List.isSuffixOf
  rw [List.reverse_append]
  simp [List.isPrefixOf]

theorem sentinel_ne_gs (e : String) :
    OUTPUT_BUNDLE_FILENAME_TO_DELETE ≠ e ++ ".gs" := by
  intro h
  have hd : OUTPUT_BUNDLE_FILENAME_TO_DELETE.data = e.data ++ ".gs".data := by
    rw [h, String.data_append]
  have h1 : OUTPUT_BUNDLE_FILENAME_TO_DELETE.data.getLast? = some 'E' := rfl
  have h2 : (e.data ++ '.' :: 'g' :: 's' :: []).getLast? = some 's' := by
    rw [List.getLast?_append_cons]
    rfl
  rw [hd] at h1
  have : (some 's' : Option Char) = some 'E' := by rw [← h2, ← h1]
  simp at this

theorem runEmitter_ok_inv (comp : CompilationM) (opts : EmitterOptsM)
    (fin : List (String × String)) (h : runEmitter comp opts = .ok fin) :
    ∃ entry, resolveTsEntrypoint comp = .ok entry ∧
      fin = emitAsset (cleanupUnwantedOutputFiles comp.assets) (entry.entryName ++ ".gs")
        (getGasSafeOutput (opts.namespaceRoot ++ "." ++ opts.subsystem)
          (sanitizeWebpackHelpers
            (getCombinedModuleSource comp (collectModulesToEmit comp entry) entry.runtime))
          (getExportBindings comp entry.entryModule opts)) := by
  unfold runEmitter at h
  cases hres : resolveTsEntrypoint comp with
  | error e => rw [hres] at h; simp at h
  | ok entry =>
    rw [hres] at h
    dsimp only at h
    cases hal : assertNoAliasedReexportsInEntry comp entry.entryModule with
    | error e => rw [hal] at h; simp at h
    | ok u =>
      cases u
      rw [hal] at h
      dsimp only at h
      cases hwc : assertNoWildcardReexports comp entry with
      | error e => rw [hwc] at h; simp at h
      | ok u =>
        cases u
        rw [hwc] at h
        dsimp only at h
        by_cases hlen : (getExportBindings comp entry.entryModule opts).length = 0
        · rw [if_pos hlen] at h
          simp at h
        · rw [if_neg hlen] at h
          cases hass : assertAllExportsHaveRuntimeDefinitions
              (getExportBindings comp entry.entryModule opts)
              (getCombinedModuleSource comp (collectModulesToEmit comp entry)
                entry.runtime) with
          | error e => rw [hass] at h; simp at h
          | ok u =>
            cases u
            rw [hass] at h
            dsimp only at h
            injection h with h
            exact ⟨entry, rfl, h.symm⟩

/-- C10: on every successful run, the final asset map holds no `.js`-named
asset and not the sentinel asset; it holds the single emitted
`<entryName>.gs` asset; every other pre-existing asset is carried over
unchanged; and the only asset name absent from the input map is
`<entryName>.gs`. -/
theorem c10_theorem (comp : CompilationM) (opts : EmitterOptsM)
    (fin : List (String × String)) (h : runEmitter comp opts = .ok fin) :
    ∃ entry, resolveTsEntrypoint comp = .ok entry ∧
      (∀ n, strEndsWith n ".js" = true → lookupAsset n fin = none) ∧
      lookupAsset OUTPUT_BUNDLE_FILENAME_TO_DELETE fin = none ∧
      (lookupAsset (entry.entryName ++ ".gs") fin).isSome = true ∧
      (∀ n v, lookupAsset n comp.assets = some v → strEndsWith n ".js" = false →
        n ≠ OUTPUT_BUNDLE_FILENAME_TO_DELETE → n ≠ entry.entryName ++ ".gs" →
        lookupAsset n fin = some v) ∧
      (∀ n, (lookupAsset n fin).isSome = true →
        n = entry.entryName ++ ".gs" ∨ (lookupAsset n comp.assets).isSome = true) := by
  obtain ⟨entry, hres, hfin⟩ := runEmitter_ok_inv comp opts fin h
  subst hfin
  refine ⟨entry, hres, ?_, ?_, ?_, ?_, ?_⟩
  · intro n hjs
    have hne : n ≠ entry.entryName ++ ".gs" := by
      intro he
      rw [he, gs_not_js] at hjs
      exact absurd hjs (by simp)
    rw [lookupAsset_emitAsset, if_neg hne, lookupAsset_cleanup,
      if_neg (by simp [hjs])]
  · rw [lookupAsset_emitAsset, if_neg (sentinel_ne_gs entry.entryName),
      lookupAsset_cleanup, if_neg (by simp)]
  · rw [lookupAsset_emitAsset, if_pos rfl]
    rfl
  · intro n v hv hjs hsent hgs
    rw [lookupAsset_emitAsset, if_neg hgs, lookupAsset_cleanup,
      if_pos (by simp [hjs, beq_eq_false_iff_ne.mpr hsent]), hv]
  · intro n hn
    by_cases hgs : n = entry.entryName ++ ".gs"
    · exact Or.inl hgs
    · right
      rw [lookupAsset_emitAsset, if_neg hgs, lookupAsset_cleanup] at hn
      by_cases hq : (!(strEndsWith n ".js" || n == OUTPUT_BUNDLE_FILENAME_TO_DELETE)) = true
      · rw [if_pos hq] at hn
        exact hn
      · rw [if_neg hq] at hn
        simp at hn

set_option maxRecDepth 10000 in
/-- C10 witness: the clean single-entry build deletes `backend.js` and the
sentinel asset, emits `backend.gs`, and keeps `keep.txt` untouched. -/
theorem c10_witness :
    runEmitter compC10 optsStd = .ok finC10 ∧
    lookupAsset "backend.js" finC10 = none ∧
    lookupAsset OUTPUT_BUNDLE_FILENAME_TO_DELETE finC10 = none ∧
    (lookupAsset "backend.gs" finC10).isSome = true ∧
    lookupAsset "keep.txt" finC10 = some "data" := by
  have hrun : runEmitter compC10 optsStd = .ok finC10 := rfl
  obtain ⟨entry, hres, h1, h2, h3, h5, _⟩ := c10_theorem compC10 optsStd finC10 hrun
  have hent : entry = entryOk := by
    have hok : Except.ok (ε := EmitError) entry = .ok entryOk := by
      rw [← hres]
      rfl
    injection hok
  subst hent
  exact ⟨hrun, h1 "backend.js" (by decide), h2, h3,
    h5 "keep.txt" "data" rfl (by decide) (by decide) (by decide)⟩

end GasDemodulify
